import Mathlib

/-!
# Verification of the payment gateway registry and manager

Shallow embedding of the Go package `payment` (files `region.go`,
`registry.go`, `manager.go`).  Go maps are modelled as association lists
whose key set is kept without duplicates in insertion order; the
`sync.RWMutex` fields are irrelevant to the sequential semantics and are
dropped.  Priorities are Go `int`, modelled as `Int`; a raw Go map read
of a missing key yields the zero value `0`, which the embedding keeps
(`lookupD _ _ 0`), while `GetGatewayPriority` explicitly defaults to
`999` as in the source.
-/

namespace Payment

/-- Association-list lookup with a default, modelling a Go map read
`m[k]` (missing key yields the supplied default / zero value). -/
def lookupD {β : Type} (l : List (String × β)) (k : String) (d : β) : β :=
  match l with
  | [] => d
  | (k', v) :: t => if k' = k then v else lookupD t k d

/-- Association-list overwrite, modelling the Go map write `m[k] = v`. -/
def setVal {β : Type} (l : List (String × β)) (k : String) (v : β) :
    List (String × β) :=
  match l with
  | [] => [(k, v)]
  | (k', v') :: t => if k' = k then (k, v) :: t else (k', v') :: setVal t k v

/-- Key insertion into a Go set-like map `map[string]bool` (keys kept
deduplicated, in insertion order). -/
def addKey (l : List String) (k : String) : List String :=
  if k ∈ l then l else l ++ [k]

/-- Membership lookup in a nested scope map
(`map[Region]map[string]bool` / `map[Country]map[string]bool`):
a missing outer key behaves like the empty inner map. -/
def scopeLookup (l : List (String × List String)) (k : String) : List String :=
  lookupD l k []

/-- Nested scope-map insertion, modelling
`if m[outer] == nil { m[outer] = make(...) }; m[outer][inner] = true`. -/
def addToScope (l : List (String × List String)) (outer inner : String) :
    List (String × List String) :=
  match l with
  | [] => [(outer, [inner])]
  | (k, s) :: t =>
    if k = outer then (k, addKey s inner) :: t
    else (k, s) :: addToScope t outer inner

/-! ## region.go -/

/-- The `CountryToRegion` table from `region.go`, verbatim. -/
def countryToRegion : List (String × String) :=
  [("NP", "south-asia"), ("IN", "south-asia"), ("PK", "south-asia"),
   ("BD", "south-asia"), ("LK", "south-asia"),
   ("SG", "southeast-asia"), ("MY", "southeast-asia"), ("ID", "southeast-asia"),
   ("TH", "southeast-asia"), ("PH", "southeast-asia"), ("VN", "southeast-asia"),
   ("CN", "east-asia"), ("JP", "east-asia"), ("KR", "east-asia"),
   ("US", "north-america"), ("CA", "north-america"), ("MX", "north-america"),
   ("GB", "europe"), ("DE", "europe"), ("FR", "europe"),
   ("ES", "europe"), ("IT", "europe"),
   ("AE", "middle-east"), ("SA", "middle-east"),
   ("NG", "africa"), ("ZA", "africa"), ("KE", "africa"),
   ("AU", "oceania"), ("NZ", "oceania"),
   ("BR", "latin-america"), ("AR", "latin-america")]

/-- `GetRegion` from `region.go`: the registered region, or the
`RegionGlobal` sentinel for an unknown country. -/
def getRegion (country : String) : String :=
  lookupD countryToRegion country "global"

/-! ## registry.go : state and registration -/

/-- `GatewayRegistry` from `registry.go` (mutex dropped). -/
structure GatewayRegistry where
  globalGateways : List String
  regionGateways : List (String × List String)
  countryGateways : List (String × List String)
  gatewayPriority : List (String × Int)
deriving Repr, DecidableEq

/-- `NewGatewayRegistry`. -/
def newGatewayRegistry : GatewayRegistry := ⟨[], [], [], []⟩

/-- `RegisterGlobalGateway`. -/
def GatewayRegistry.registerGlobalGateway (r : GatewayRegistry)
    (method : String) (priority : Int) : GatewayRegistry :=
  { r with globalGateways := addKey r.globalGateways method,
           gatewayPriority := setVal r.gatewayPriority method priority }

/-- `RegisterRegionGateway`. -/
def GatewayRegistry.registerRegionGateway (r : GatewayRegistry)
    (region method : String) (priority : Int) : GatewayRegistry :=
  { r with regionGateways := addToScope r.regionGateways region method,
           gatewayPriority := setVal r.gatewayPriority method priority }

/-- `RegisterCountryGateway`. -/
def GatewayRegistry.registerCountryGateway (r : GatewayRegistry)
    (country method : String) (priority : Int) : GatewayRegistry :=
  { r with countryGateways := addToScope r.countryGateways country method,
           gatewayPriority := setVal r.gatewayPriority method priority }

/-! ## registry.go : bubble sort

`sortByPriority` and `sortRecommendations` are the same in-place bubble
sort, differing only in how the priority of an element is fetched; the
embedding factors that as a key function `f`.  `bubblePass f k` performs
the inner loop `for j := 0; j < k; j++ { compare-and-swap j, j+1 }`, and
`bubbleOuter` the outer loop (iteration `i` of the Go loop runs the
inner loop with bound `n-i-1`, i.e. the countdown `n-1, n-2, ..., 1`). -/

def bubblePass {α : Type} (f : α → Int) : Nat → List α → List α
  | 0, l => l
  | _ + 1, [] => []
  | _ + 1, [a] => [a]
  | k + 1, a :: b :: rest =>
    if f a > f b then b :: bubblePass f k (a :: rest)
    else a :: bubblePass f k (b :: rest)

def bubbleOuter {α : Type} (f : α → Int) : Nat → List α → List α
  | 0, l => l
  | c + 1, l => bubbleOuter f c (bubblePass f (c + 1) l)

def bubbleSort {α : Type} (f : α → Int) (l : List α) : List α :=
  bubbleOuter f (l.length - 1) l

/-- The key used by `sortByPriority`: the raw map read
`r.gatewayPriority[gateways[j]]` (zero value `0` when absent). -/
def GatewayRegistry.prioKey (r : GatewayRegistry) (m : String) : Int :=
  lookupD r.gatewayPriority m 0

/-- `sortByPriority` from `registry.go`. -/
def GatewayRegistry.sortByPriority (r : GatewayRegistry)
    (gateways : List String) : List String :=
  bubbleSort r.prioKey gateways

/-! ## registry.go : queries -/

/-- `GetAvailableGateways`: union of the three scopes for the country
(global, then region, then country, deduplicated as by the Go map
`gatewaysMap`), sorted by priority. -/
def GatewayRegistry.getAvailableGateways (r : GatewayRegistry)
    (country : String) : List String :=
  let g0 := r.globalGateways.foldl addKey []
  let g1 := (scopeLookup r.regionGateways (getRegion country)).foldl addKey g0
  let g2 := (scopeLookup r.countryGateways country).foldl addKey g1
  r.sortByPriority g2

/-- `IsGatewayAvailable`: global, then region, then country check with
early return. -/
def GatewayRegistry.isGatewayAvailable (r : GatewayRegistry)
    (country method : String) : Bool :=
  if method ∈ r.globalGateways then true
  else if method ∈ scopeLookup r.regionGateways (getRegion country) then true
  else if method ∈ scopeLookup r.countryGateways country then true
  else false

/-- `GetGatewayPriority`: the registered priority, or the `999`
default. -/
def GatewayRegistry.getGatewayPriority (r : GatewayRegistry)
    (method : String) : Int :=
  lookupD r.gatewayPriority method 999

/-- `ValidateGatewayForCountry` from `registry.go`. -/
def GatewayRegistry.validateGatewayForCountry (r : GatewayRegistry)
    (country method : String) : Except String Unit :=
  if ¬ r.isGatewayAvailable country method then
    Except.error ("gateway " ++ method ++ " is not available for country " ++ country)
  else Except.ok ()

/-! ## registry.go : recommendations -/

/-- `GatewayRecommendation` from `registry.go`. -/
structure GatewayRecommendation where
  Method : String
  Priority : Int
  Scope : String
  Available : Bool
  Recommended : Bool
deriving Repr, DecidableEq

/-- The common shape of the three emission loops of `GetRecommendations`:
skip a method already in `seenMethods`, otherwise append an entry tagged
with the loop's scope, whose `Recommended` field is a function of
`len(recommendations)` at the moment of emission. -/
def emitStep (scope : String) (recFlag : Nat → Bool) (p : List (String × Int))
    (st : List GatewayRecommendation × List String) (method : String) :
    List GatewayRecommendation × List String :=
  if method ∈ st.2 then st
  else (st.1 ++ [⟨method, lookupD p method 0, scope, true, recFlag st.1.length⟩],
        method :: st.2)

/-- One step of the country-scope loop (`Recommended: true`). -/
def countryStep : List (String × Int) →
    List GatewayRecommendation × List String → String →
    List GatewayRecommendation × List String :=
  emitStep "country" (fun _ => true)

/-- One step of the region-scope loop
(`Recommended: len(recommendations) < 5`). -/
def regionStep : List (String × Int) →
    List GatewayRecommendation × List String → String →
    List GatewayRecommendation × List String :=
  emitStep "region" (fun n => decide (n < 5))

/-- One step of the global-scope loop (`Recommended: false`). -/
def globalStep : List (String × Int) →
    List GatewayRecommendation × List String → String →
    List GatewayRecommendation × List String :=
  emitStep "global" (fun _ => false)

/-- The `(recommendations, seenMethods)` state after the three emission
loops of `GetRecommendations`: country entries, then region entries not
already seen, then global entries not already seen, in source order. -/
def GatewayRegistry.buildState (r : GatewayRegistry) (country : String) :
    List GatewayRecommendation × List String :=
  r.globalGateways.foldl (globalStep r.gatewayPriority)
    ((scopeLookup r.regionGateways (getRegion country)).foldl
      (regionStep r.gatewayPriority)
      ((scopeLookup r.countryGateways country).foldl
        (countryStep r.gatewayPriority) ([], [])))

/-- The emitted recommendation list of `GetRecommendations`, before the
final priority sort. -/
def GatewayRegistry.buildRecommendations (r : GatewayRegistry)
    (country : String) : List GatewayRecommendation :=
  (r.buildState country).1

/-- `sortRecommendations` from `registry.go`. -/
def sortRecommendations (recs : List GatewayRecommendation) :
    List GatewayRecommendation :=
  bubbleSort (fun rec => rec.Priority) recs

/-- `GetRecommendations` from `registry.go`. -/
def GatewayRegistry.getRecommendations (r : GatewayRegistry)
    (country : String) : List GatewayRecommendation :=
  sortRecommendations (r.buildRecommendations country)

/-! ## manager.go

The manager's `gateways` field maps method names to live `Gateway`
instances; only the key set (which methods are configured) is relevant
to the verified claims, so an instance is represented by its method
name.  The HTTP client, factories and the four network operations are
external collaborators; the point at which `InitiatePaymentWithMethod`
hands the request to the capability is represented by the
`InitResult.dispatched` constructor. -/

/-- `PaymentManager` (instance map restricted to its key set). -/
structure PaymentManager where
  gateways : List String
  registry : GatewayRegistry
deriving Repr, DecidableEq

/-- `GetGateway`: the live instance, or the "not registered" error. -/
def PaymentManager.getGateway (pm : PaymentManager) (method : String) :
    Except String Unit :=
  if method ∈ pm.gateways then Except.ok ()
  else Except.error ("gateway " ++ method ++ " not registered")

/-- Outcome of `InitiatePaymentWithMethod`: the two error kinds, or a
dispatch to the capability. -/
inductive InitResult where
  | notEligible (country method : String)
  | notConfigured (method : String)
  | dispatched (method : String)
deriving Repr, DecidableEq

/-- `InitiatePaymentWithMethod` from `manager.go`: eligibility gate,
then configuration gate, then dispatch. -/
def PaymentManager.initiatePaymentWithMethod (pm : PaymentManager)
    (country method : String) : InitResult :=
  match pm.registry.validateGatewayForCountry country method with
  | Except.error _ => InitResult.notEligible country method
  | Except.ok _ =>
    match pm.getGateway method with
    | Except.error _ => InitResult.notConfigured method
    | Except.ok _ => InitResult.dispatched method

/-- `GetAvailableGatewaysForCountry` from `manager.go`: the registry's
list, keeping those methods with a live instance. -/
def PaymentManager.getAvailableGatewaysForCountry (pm : PaymentManager)
    (country : String) : List String :=
  (pm.registry.getAvailableGateways country).foldl
    (fun acc method => if method ∈ pm.gateways then acc ++ [method] else acc) []

/-- `GetRecommendedGateway` from `manager.go`. -/
def PaymentManager.getRecommendedGateway (pm : PaymentManager)
    (country : String) : Except String String :=
  match pm.getAvailableGatewaysForCountry country with
  | [] => Except.error ("no gateways available for country " ++ country)
  | m :: _ => Except.ok m

/-- The manager's `IsGatewayAvailable` from `manager.go`: delegates to
the registry. -/
def PaymentManager.isGatewayAvailable (pm : PaymentManager)
    (country method : String) : Bool :=
  pm.registry.isGatewayAvailable country method

/-! ## Well-formedness and auxiliary predicates -/

/-- Well-formedness of a registry state: every method appearing in a
scope map also has a priority binding.  Every state reachable through
the three registration operations satisfies it, because each
registration writes `gatewayPriority[method]`. -/
def GatewayRegistry.WF (r : GatewayRegistry) : Prop :=
  (∀ m ∈ r.globalGateways, m ∈ r.gatewayPriority.map Prod.fst) ∧
  (∀ e ∈ r.regionGateways, ∀ m ∈ e.2, m ∈ r.gatewayPriority.map Prod.fst) ∧
  (∀ e ∈ r.countryGateways, ∀ m ∈ e.2, m ∈ r.gatewayPriority.map Prod.fst)

/-- The recommended-flag discipline of `GetRecommendations`, stated on
the emission-ordered list (before the priority sort): country entries
are always recommended, a region entry is recommended exactly when it
sits among the first 5 emitted entries, global entries never are. -/
def flagsOK (l : List GatewayRecommendation) : Prop :=
  ∀ i, (h : i < l.length) →
    (l[i].Scope = "country" → l[i].Recommended = true) ∧
    (l[i].Scope = "region" → (l[i].Recommended = true ↔ i < 5)) ∧
    (l[i].Scope = "global" → l[i].Recommended = false)

/-- Invariant of the emission loops of `GetRecommendations`: the emitted
methods are pairwise distinct and coincide with the `seenMethods` set. -/
def SeenInv (st : List GatewayRecommendation × List String) : Prop :=
  (st.1.map GatewayRecommendation.Method).Nodup ∧
  ∀ x, x ∈ st.1.map GatewayRecommendation.Method ↔ x ∈ st.2

/-- The scenario registry of the spec: country `NP` methods `esewa`
(priority 1) and `khalti` (priority 2), global method `stripe`
(priority 10). -/
def npRegistry : GatewayRegistry :=
  ((newGatewayRegistry.registerCountryGateway "NP" "esewa" 1).registerCountryGateway
    "NP" "khalti" 2).registerGlobalGateway "stripe" 10

/-- A registry in which method `m` is registered both for country `NP`
and globally, used to exercise the cross-scope behaviour of
`GetRecommendations`. -/
def dupRegistry : GatewayRegistry :=
  (newGatewayRegistry.registerCountryGateway "NP" "m" 1).registerGlobalGateway "m" 1

/-- A manager over the scenario registry in which only `stripe` has a
live instance. -/
def npManager : PaymentManager := ⟨["stripe"], npRegistry⟩

/-- A manager over the scenario registry with no live instances. -/
def bareManager : PaymentManager := ⟨[], npRegistry⟩

/-! ## Bubble sort lemmas -/

theorem bubblePass_perm {α : Type} (f : α → Int) :
    ∀ (k : Nat) (l : List α), (bubblePass f k l).Perm l
  | 0, l => by simp [bubblePass]
  | _ + 1, [] => by simp [bubblePass]
  | _ + 1, [a] => by simp [bubblePass]
  | k + 1, a :: b :: rest => by
    by_cases h : f a > f b
    · simp only [bubblePass, if_pos h]
      exact ((bubblePass_perm f k (a :: rest)).cons b).trans (List.Perm.swap a b rest)
    · simp only [bubblePass, if_neg h]
      exact (bubblePass_perm f k (b :: rest)).cons a

theorem bubblePass_drop {α : Type} (f : α → Int) :
    ∀ (k : Nat) (l : List α), (bubblePass f k l).drop (k + 1) = l.drop (k + 1)
  | 0, l => by simp [bubblePass]
  | _ + 1, [] => by simp [bubblePass]
  | _ + 1, [a] => by simp [bubblePass]
  | k + 1, a :: b :: rest => by
    by_cases h : f a > f b
    · simp only [bubblePass, if_pos h, List.drop_succ_cons]
      exact bubblePass_drop f k (a :: rest)
    · simp only [bubblePass, if_neg h, List.drop_succ_cons]
      exact bubblePass_drop f k (b :: rest)

theorem bubblePass_max {α : Type} (f : α → Int) :
    ∀ (k : Nat) (l : List α), l ≠ [] →
      ∃ p m, (bubblePass f k l).take (k + 1) = p ++ [m] ∧
        ∀ x ∈ l.take (k + 1), f x ≤ f m
  | 0, [], h => absurd rfl h
  | 0, a :: t, _ => by
    refine ⟨[], a, by simp [bubblePass], ?_⟩
    intro x hx
    simp only [List.take_succ_cons, List.take_zero] at hx
    simp only [List.mem_singleton] at hx
    exact hx ▸ le_refl _
  | _ + 1, [], h => absurd rfl h
  | k + 1, [a], _ => by
    refine ⟨[], a, by simp [bubblePass], ?_⟩
    intro x hx
    simp only [List.take_succ_cons, List.take_nil, List.mem_singleton] at hx
    exact hx ▸ le_refl _
  | k + 1, a :: b :: rest, _ => by
    by_cases h : f a > f b
    · obtain ⟨p, m, hpm, hm⟩ := bubblePass_max f k (a :: rest) (by simp)
      refine ⟨b :: p, m, ?_, ?_⟩
      · simp only [bubblePass, if_pos h, List.take_succ_cons, hpm, List.cons_append]
      · intro x hx
        simp only [List.take_succ_cons, List.mem_cons] at hx
        rcases hx with rfl | rfl | hx
        · exact hm x (by simp)
        · exact le_trans (le_of_lt h) (hm a (by simp))
        · exact hm x (by simp [List.take_succ_cons, List.mem_cons, Or.inr hx])
    · obtain ⟨p, m, hpm, hm⟩ := bubblePass_max f k (b :: rest) (by simp)
      refine ⟨a :: p, m, ?_, ?_⟩
      · simp only [bubblePass, if_neg h, List.take_succ_cons, hpm, List.cons_append]
      · intro x hx
        simp only [List.take_succ_cons, List.mem_cons] at hx
        rcases hx with rfl | rfl | hx
        · exact le_trans (not_lt.mp h) (hm b (by simp))
        · exact hm x (by simp)
        · exact hm x (by simp [List.take_succ_cons, List.mem_cons, Or.inr hx])

theorem bubbleOuter_perm {α : Type} (f : α → Int) :
    ∀ (c : Nat) (l : List α), (bubbleOuter f c l).Perm l
  | 0, l => List.Perm.refl l
  | c + 1, l =>
    (bubbleOuter_perm f c (bubblePass f (c + 1) l)).trans (bubblePass_perm f (c + 1) l)

theorem bubbleSort_perm {α : Type} (f : α → Int) (l : List α) :
    (bubbleSort f l).Perm l :=
  bubbleOuter_perm f (l.length - 1) l

theorem bubblePass_length {α : Type} (f : α → Int) (k : Nat) (l : List α) :
    (bubblePass f k l).length = l.length :=
  (bubblePass_perm f k l).length_eq

theorem bubblePass_take_perm {α : Type} (f : α → Int) (k : Nat) (l : List α) :
    ((bubblePass f k l).take (k + 1)).Perm (l.take (k + 1)) := by
  have h3 : ((bubblePass f k l).take (k + 1) ++ l.drop (k + 1)).Perm
      (l.take (k + 1) ++ l.drop (k + 1)) := by
    have he : (bubblePass f k l).take (k + 1) ++ l.drop (k + 1) = bubblePass f k l := by
      rw [← bubblePass_drop f k l, List.take_append_drop]
    rw [he, List.take_append_drop]
    exact bubblePass_perm f k l
  exact (List.perm_append_right_iff _).mp h3

theorem bubbleOuter_sorted {α : Type} (f : α → Int) :
    ∀ (c : Nat) (l : List α), c + 1 ≤ l.length →
      (∀ x ∈ l.take (c + 1), ∀ y ∈ l.drop (c + 1), f x ≤ f y) →
      (l.drop (c + 1)).Pairwise (fun a b => f a ≤ f b) →
      (bubbleOuter f c l).Pairwise (fun a b => f a ≤ f b)
  | 0, l, hlen, h1, h2 => by
    match l, hlen with
    | a :: t, _ =>
      show (a :: t).Pairwise _
      rw [List.pairwise_cons]
      constructor
      · intro y hy
        exact h1 a (by simp) y (by simpa using hy)
      · simpa using h2
  | c + 1, l, hlen, h1, h2 => by
    have hlen2 : c + 2 ≤ l.length := hlen
    have hne : l ≠ [] := by
      intro h; rw [h] at hlen2; simp at hlen2
    have hlen' : (bubblePass f (c + 1) l).length = l.length := bubblePass_length f (c + 1) l
    have hdrop : (bubblePass f (c + 1) l).drop (c + 2) = l.drop (c + 2) := by
      exact bubblePass_drop f (c + 1) l
    have htake : ((bubblePass f (c + 1) l).take (c + 2)).Perm (l.take (c + 2)) := by
      exact bubblePass_take_perm f (c + 1) l
    obtain ⟨p, m, hpm, hm⟩ := bubblePass_max f (c + 1) l hne
    have hpm2 : (bubblePass f (c + 1) l).take (c + 2) = p ++ [m] := hpm
    have hm2 : ∀ x ∈ l.take (c + 2), f x ≤ f m := hm
    have hlen3 : ((bubblePass f (c + 1) l).take (c + 2)).length = c + 2 := by
      rw [List.length_take, hlen']
      exact Nat.min_eq_left hlen2
    have hplen : p.length = c + 1 := by
      have h4 := hpm2 ▸ hlen3
      simp only [List.length_append, List.length_singleton] at h4
      omega
    have hsplit : bubblePass f (c + 1) l = (p ++ [m]) ++ l.drop (c + 2) := by
      conv_lhs => rw [← List.take_append_drop (c + 2) (bubblePass f (c + 1) l)]
      rw [hpm2, hdrop]
    have htk : (bubblePass f (c + 1) l).take (c + 1) = p := by
      rw [hsplit, List.append_assoc, List.take_left' hplen]
    have hdr : (bubblePass f (c + 1) l).drop (c + 1) = m :: l.drop (c + 2) := by
      rw [hsplit, List.append_assoc, List.drop_left' hplen]
      rfl
    have hmemtake : ∀ x ∈ p ++ [m], x ∈ l.take (c + 2) := by
      intro x hx
      exact htake.mem_iff.mp (hpm2 ▸ hx)
    show (bubbleOuter f c (bubblePass f (c + 1) l)).Pairwise _
    apply bubbleOuter_sorted f c (bubblePass f (c + 1) l)
    · omega
    · intro x hx y hy
      rw [htk] at hx
      rw [hdr] at hy
      have hxl : x ∈ l.take (c + 2) := hmemtake x (by simp [hx])
      rcases List.mem_cons.mp hy with rfl | hy'
      · exact hm2 x hxl
      · exact h1 x hxl y hy'
    · rw [hdr, List.pairwise_cons]
      constructor
      · intro y hy
        exact h1 m (hmemtake m (by simp)) y hy
      · exact h2

theorem bubbleSort_sorted {α : Type} (f : α → Int) (l : List α) :
    (bubbleSort f l).Pairwise (fun a b => f a ≤ f b) := by
  cases l with
  | nil => simp [bubbleSort, bubbleOuter]
  | cons a t =>
    have hlen : (a :: t).length - 1 = t.length := by simp
    show (bubbleOuter f ((a :: t).length - 1) (a :: t)).Pairwise _
    rw [hlen]
    apply bubbleOuter_sorted f t.length (a :: t) (by simp)
    · intro x _ y hy
      have : (a :: t).drop (t.length + 1) = [] := by
        have : t.length + 1 = (a :: t).length := by simp
        rw [this, List.drop_length]
      rw [this] at hy
      simp at hy
    · have : t.length + 1 = (a :: t).length := by simp
      rw [this, List.drop_length]
      exact List.Pairwise.nil

/-! ## Association-list and key-set lemmas -/

theorem addKey_mem (l : List String) (k x : String) :
    x ∈ addKey l k ↔ x ∈ l ∨ x = k := by
  unfold addKey
  split
  · constructor
    · exact Or.inl
    · rintro (h | rfl)
      · exact h
      · assumption
  · simp

theorem addKey_nodup (l : List String) (k : String) (h : l.Nodup) :
    (addKey l k).Nodup := by
  unfold addKey
  split
  · exact h
  · rw [List.nodup_append]
    refine ⟨h, List.nodup_singleton k, ?_⟩
    intro x hx hk
    simp only [List.mem_singleton] at hk
    subst hk
    exact absurd hx (by assumption)

theorem foldl_addKey_mem (l : List String) :
    ∀ (init : List String) (x : String),
      x ∈ l.foldl addKey init ↔ x ∈ init ∨ x ∈ l := by
  induction l with
  | nil => simp
  | cons a t ih =>
    intro init x
    rw [List.foldl_cons, ih, addKey_mem]
    simp only [List.mem_cons]
    tauto

theorem foldl_addKey_nodup (l : List String) :
    ∀ (init : List String), init.Nodup → (l.foldl addKey init).Nodup := by
  induction l with
  | nil => exact fun _ h => h
  | cons a t ih => exact fun init h => ih (addKey init a) (addKey_nodup init a h)

theorem addKey_idem (l : List String) (k : String) :
    addKey (addKey l k) k = addKey l k := by
  have hk : k ∈ addKey l k := (addKey_mem l k k).mpr (Or.inr rfl)
  show (if k ∈ addKey l k then addKey l k else addKey l k ++ [k]) = addKey l k
  exact if_pos hk

theorem lookupD_setVal {β : Type} (l : List (String × β)) (k : String) (v d : β) :
    lookupD (setVal l k v) k d = v := by
  induction l with
  | nil => simp [setVal, lookupD]
  | cons e t ih =>
    obtain ⟨k', v'⟩ := e
    by_cases h : k' = k
    · simp [setVal, lookupD, h]
    · simp [setVal, lookupD, h, ih]

theorem lookupD_not_mem {β : Type} (l : List (String × β)) (k : String) (d : β)
    (h : k ∉ l.map Prod.fst) : lookupD l k d = d := by
  induction l with
  | nil => rfl
  | cons e t ih =>
    obtain ⟨k', v'⟩ := e
    simp only [List.map_cons, List.mem_cons] at h
    push_neg at h
    simp only [lookupD, if_neg (fun he : k' = k => h.1 he.symm)]
    exact ih h.2

theorem lookupD_mem_irrel {β : Type} (l : List (String × β)) (k : String)
    (d₁ d₂ : β) (h : k ∈ l.map Prod.fst) : lookupD l k d₁ = lookupD l k d₂ := by
  induction l with
  | nil => simp at h
  | cons e t ih =>
    obtain ⟨k', v'⟩ := e
    by_cases he : k' = k
    · simp [lookupD, he]
    · simp only [List.map_cons, List.mem_cons] at h
      rcases h with h | h
      · exact absurd h.symm he
      · simp only [lookupD, if_neg he]
        exact ih h

theorem setVal_idem {β : Type} (l : List (String × β)) (k : String) (v : β) :
    setVal (setVal l k v) k v = setVal l k v := by
  induction l with
  | nil => simp [setVal]
  | cons e t ih =>
    obtain ⟨k', v'⟩ := e
    by_cases h : k' = k
    · simp [setVal, h]
    · simp [setVal, h, ih]

theorem scopeLookup_addToScope_self (l : List (String × List String))
    (outer inner : String) :
    scopeLookup (addToScope l outer inner) outer =
      addKey (scopeLookup l outer) inner := by
  induction l with
  | nil => simp [addToScope, scopeLookup, lookupD, addKey]
  | cons e t ih =>
    obtain ⟨k, s⟩ := e
    by_cases h : k = outer
    · simp [addToScope, scopeLookup, lookupD, h]
    · simp only [addToScope, if_neg h, scopeLookup, lookupD, if_neg h]
      exact ih

theorem scopeLookup_addToScope_other (l : List (String × List String))
    (outer inner k : String) (hk : k ≠ outer) :
    scopeLookup (addToScope l outer inner) k = scopeLookup l k := by
  induction l with
  | nil => simp [addToScope, scopeLookup, lookupD, Ne.symm hk]
  | cons e t ih =>
    obtain ⟨k', s⟩ := e
    by_cases h : k' = outer
    · subst h
      have hne : ¬ k' = k := fun h => hk h.symm
      simp [addToScope, scopeLookup, lookupD, hne]
    · simp only [addToScope, if_neg h, scopeLookup, lookupD]
      by_cases h2 : k' = k
      · simp [h2]
      · simp only [if_neg h2]
        exact ih

theorem addToScope_idem (l : List (String × List String)) (outer inner : String) :
    addToScope (addToScope l outer inner) outer inner = addToScope l outer inner := by
  induction l with
  | nil => simp [addToScope, addKey]
  | cons e t ih =>
    obtain ⟨k, s⟩ := e
    by_cases h : k = outer
    · simp [addToScope, h, addKey_idem]
    · simp [addToScope, h, ih]

theorem scopeLookup_prop {C : String → Prop} (l : List (String × List String))
    (k : String) (h : ∀ e ∈ l, ∀ x ∈ e.2, C x) : ∀ x ∈ scopeLookup l k, C x := by
  induction l with
  | nil => intro x hx; simp [scopeLookup, lookupD] at hx
  | cons e t ih =>
    obtain ⟨k', s⟩ := e
    intro x hx
    simp only [scopeLookup, lookupD] at hx
    by_cases he : k' = k
    · rw [if_pos he] at hx
      exact h (k', s) (by simp) x hx
    · rw [if_neg he] at hx
      exact ih (fun e he' x hx' => h e (List.mem_cons_of_mem _ he') x hx') x hx

/-! ## Registry query lemmas -/

theorem mem_getAvailableGateways (r : GatewayRegistry) (c m : String) :
    m ∈ r.getAvailableGateways c ↔
      m ∈ r.globalGateways ∨ m ∈ scopeLookup r.regionGateways (getRegion c) ∨
        m ∈ scopeLookup r.countryGateways c := by
  show m ∈ bubbleSort r.prioKey _ ↔ _
  rw [(bubbleSort_perm _ _).mem_iff]
  rw [foldl_addKey_mem, foldl_addKey_mem, foldl_addKey_mem]
  simp only [List.not_mem_nil, false_or]
  tauto

theorem getAvailableGateways_nodup (r : GatewayRegistry) (c : String) :
    (r.getAvailableGateways c).Nodup := by
  show (bubbleSort r.prioKey _).Nodup
  exact (bubbleSort_perm _ _).symm.nodup
    (foldl_addKey_nodup _ _ (foldl_addKey_nodup _ _
      (foldl_addKey_nodup _ _ List.nodup_nil)))

theorem WF_eligible_prio (r : GatewayRegistry) (h : r.WF) (c m : String)
    (hm : m ∈ r.getAvailableGateways c) : m ∈ r.gatewayPriority.map Prod.fst := by
  rcases (mem_getAvailableGateways r c m).mp hm with h1 | h1 | h1
  · exact h.1 m h1
  · exact scopeLookup_prop r.regionGateways (getRegion c) h.2.1 m h1
  · exact scopeLookup_prop r.countryGateways c h.2.2 m h1

theorem getAvailableGateways_sorted (r : GatewayRegistry) (h : r.WF) (c : String) :
    (r.getAvailableGateways c).Pairwise
      (fun a b => r.getGatewayPriority a ≤ r.getGatewayPriority b) := by
  have hs : (r.getAvailableGateways c).Pairwise
      (fun a b => r.prioKey a ≤ r.prioKey b) := bubbleSort_sorted r.prioKey _
  refine List.Pairwise.imp_of_mem ?_ hs
  intro a b ha hb hab
  have ha' := WF_eligible_prio r h c a ha
  have hb' := WF_eligible_prio r h c b hb
  show lookupD r.gatewayPriority a 999 ≤ lookupD r.gatewayPriority b 999
  rw [lookupD_mem_irrel _ _ 999 0 ha', lookupD_mem_irrel _ _ 999 0 hb']
  exact hab

/-! ## Emission loop lemmas -/

theorem emitStep_seen (scope : String) (recFlag : Nat → Bool)
    (p : List (String × Int)) (st : List GatewayRecommendation × List String)
    (method x : String) :
    x ∈ (emitStep scope recFlag p st method).2 ↔ x ∈ st.2 ∨ x = method := by
  by_cases hmem : method ∈ st.2
  · simp only [emitStep, if_pos hmem]
    constructor
    · exact Or.inl
    · rintro (h | rfl)
      · exact h
      · exact hmem
  · simp only [emitStep, if_neg hmem, List.mem_cons]
    tauto

theorem foldl_emitStep_seen (scope : String) (recFlag : Nat → Bool)
    (p : List (String × Int)) (ms : List String) :
    ∀ (st : List GatewayRecommendation × List String) (x : String),
      x ∈ (ms.foldl (emitStep scope recFlag p) st).2 ↔ x ∈ st.2 ∨ x ∈ ms := by
  induction ms with
  | nil => simp
  | cons a t ih =>
    intro st x
    rw [List.foldl_cons, ih, emitStep_seen]
    simp only [List.mem_cons]
    tauto

theorem emitStep_seenInv (scope : String) (recFlag : Nat → Bool)
    (p : List (String × Int)) (st : List GatewayRecommendation × List String)
    (method : String) (h : SeenInv st) :
    SeenInv (emitStep scope recFlag p st method) := by
  by_cases hmem : method ∈ st.2
  · simp only [emitStep, if_pos hmem]
    exact h
  · simp only [emitStep, if_neg hmem]
    constructor
    · simp only [List.map_append, List.map_cons, List.map_nil]
      rw [List.nodup_append]
      refine ⟨h.1, List.nodup_singleton _, ?_⟩
      intro x hx hx2
      simp only [List.mem_singleton] at hx2
      subst hx2
      exact hmem ((h.2 x).mp hx)
    · intro x
      simp only [List.map_append, List.map_cons, List.map_nil, List.mem_append,
        List.mem_singleton, List.mem_cons]
      have h2 := h.2 x
      tauto

theorem foldl_emitStep_seenInv (scope : String) (recFlag : Nat → Bool)
    (p : List (String × Int)) (ms : List String) :
    ∀ (st : List GatewayRecommendation × List String), SeenInv st →
      SeenInv (ms.foldl (emitStep scope recFlag p) st) := by
  induction ms with
  | nil => exact fun _ h => h
  | cons a t ih =>
    exact fun st h => ih _ (emitStep_seenInv scope recFlag p st a h)

theorem foldl_emitStep_entries (scope : String) (recFlag : Nat → Bool)
    (p : List (String × Int)) (ms : List String) :
    ∀ (st : List GatewayRecommendation × List String)
      (e : GatewayRecommendation),
      e ∈ (ms.foldl (emitStep scope recFlag p) st).1 →
        e ∈ st.1 ∨ (e.Scope = scope ∧ e.Method ∈ ms ∧ e.Method ∉ st.2 ∧
          e.Available = true ∧ e.Priority = lookupD p e.Method 0) := by
  induction ms with
  | nil => exact fun _ e h => Or.inl h
  | cons a t ih =>
    intro st e h
    rw [List.foldl_cons] at h
    rcases ih _ e h with h1 | h1
    · by_cases hmem : a ∈ st.2
      · rw [emitStep, if_pos hmem] at h1
        exact Or.inl h1
      · rw [emitStep, if_neg hmem] at h1
        rcases List.mem_append.mp h1 with h2 | h2
        · exact Or.inl h2
        · simp only [List.mem_singleton] at h2
          subst h2
          exact Or.inr ⟨rfl, by simp, hmem, rfl, rfl⟩
    · obtain ⟨hsc, hms, hns, hav, hpr⟩ := h1
      refine Or.inr ⟨hsc, List.mem_cons_of_mem _ hms, ?_, hav, hpr⟩
      intro hmem
      exact hns ((emitStep_seen scope recFlag p st a e.Method).mpr (Or.inl hmem))

theorem flagsOK_nil : flagsOK [] := by
  intro i hi
  simp at hi

theorem flagsOK_append (l : List GatewayRecommendation) (e : GatewayRecommendation)
    (h : flagsOK l)
    (hc : e.Scope = "country" → e.Recommended = true)
    (hr : e.Scope = "region" → (e.Recommended = true ↔ l.length < 5))
    (hg : e.Scope = "global" → e.Recommended = false) :
    flagsOK (l ++ [e]) := by
  intro i hi
  rw [List.length_append, List.length_singleton] at hi
  by_cases hlt : i < l.length
  · have hbound : i < (l ++ [e]).length := by
      rw [List.length_append]
      omega
    have hget : (l ++ [e])[i] = l[i] := List.getElem_append_left hlt
    rw [hget]
    exact h i hlt
  · have hieq : i = l.length := by omega
    subst hieq
    have hbound : l.length < (l ++ [e]).length := by simp
    have hget : (l ++ [e])[l.length] = e := by
      rw [List.getElem_append_right (le_refl _)]
      simp
    rw [hget]
    exact ⟨hc, hr, hg⟩

theorem foldl_emitStep_flagsOK (scope : String) (recFlag : Nat → Bool)
    (p : List (String × Int))
    (hflag : ∀ n, (scope = "country" → recFlag n = true) ∧
      (scope = "region" → (recFlag n = true ↔ n < 5)) ∧
      (scope = "global" → recFlag n = false))
    (ms : List String) :
    ∀ (st : List GatewayRecommendation × List String), flagsOK st.1 →
      flagsOK ((ms.foldl (emitStep scope recFlag p) st).1) := by
  induction ms with
  | nil => exact fun _ h => h
  | cons a t ih =>
    intro st h
    rw [List.foldl_cons]
    apply ih
    by_cases hmem : a ∈ st.2
    · simp only [emitStep, if_pos hmem]
      exact h
    · simp only [emitStep, if_neg hmem]
      exact flagsOK_append st.1 _ h
        (fun hs => (hflag st.1.length).1 hs)
        (fun hs => (hflag st.1.length).2.1 hs)
        (fun hs => (hflag st.1.length).2.2 hs)

/-! ## Recommendation construction lemmas -/

theorem buildState_eq (r : GatewayRegistry) (c : String) :
    r.buildState c =
      r.globalGateways.foldl (emitStep "global" (fun _ => false) r.gatewayPriority)
        ((scopeLookup r.regionGateways (getRegion c)).foldl
          (emitStep "region" (fun n => decide (n < 5)) r.gatewayPriority)
          ((scopeLookup r.countryGateways c).foldl
            (emitStep "country" (fun _ => true) r.gatewayPriority) ([], []))) := rfl

theorem buildState_seenInv (r : GatewayRegistry) (c : String) :
    SeenInv (r.buildState c) := by
  rw [buildState_eq]
  refine foldl_emitStep_seenInv _ _ _ _ _ (foldl_emitStep_seenInv _ _ _ _ _
    (foldl_emitStep_seenInv _ _ _ _ _ ⟨List.nodup_nil, by simp⟩))

theorem buildState_seen (r : GatewayRegistry) (c x : String) :
    x ∈ (r.buildState c).2 ↔
      x ∈ scopeLookup r.countryGateways c ∨
      x ∈ scopeLookup r.regionGateways (getRegion c) ∨
      x ∈ r.globalGateways := by
  rw [buildState_eq, foldl_emitStep_seen, foldl_emitStep_seen, foldl_emitStep_seen]
  simp only [List.not_mem_nil, false_or]
  tauto

theorem buildRecommendations_mem (r : GatewayRegistry) (c x : String) :
    x ∈ (r.buildRecommendations c).map GatewayRecommendation.Method ↔
      x ∈ scopeLookup r.countryGateways c ∨
      x ∈ scopeLookup r.regionGateways (getRegion c) ∨
      x ∈ r.globalGateways := by
  show x ∈ (r.buildState c).1.map GatewayRecommendation.Method ↔ _
  rw [(buildState_seenInv r c).2 x]
  exact buildState_seen r c x

theorem buildRecommendations_nodup (r : GatewayRegistry) (c : String) :
    ((r.buildRecommendations c).map GatewayRecommendation.Method).Nodup :=
  (buildState_seenInv r c).1

theorem buildRecommendations_flagsOK (r : GatewayRegistry) (c : String) :
    flagsOK (r.buildRecommendations c) := by
  show flagsOK (r.buildState c).1
  rw [buildState_eq]
  apply foldl_emitStep_flagsOK "global" _ _ ?_ _ _
    (foldl_emitStep_flagsOK "region" _ _ ?_ _ _
      (foldl_emitStep_flagsOK "country" _ _ ?_ _ _ flagsOK_nil))
  · intro n
    refine ⟨fun h => absurd h (by decide), fun h => absurd h (by decide),
      fun _ => rfl⟩
  · intro n
    refine ⟨fun h => absurd h (by decide), fun _ => decide_eq_true_iff, ?_⟩
    intro h
    exact absurd h (by decide)
  · intro n
    refine ⟨fun _ => rfl, fun h => absurd h (by decide), fun h => absurd h (by decide)⟩

theorem buildRecommendations_scope (r : GatewayRegistry) (c : String)
    (e : GatewayRecommendation) (he : e ∈ r.buildRecommendations c) :
    e.Scope = (if e.Method ∈ scopeLookup r.countryGateways c then "country"
      else if e.Method ∈ scopeLookup r.regionGateways (getRegion c) then "region"
      else "global") ∧
    e.Available = true ∧ e.Priority = lookupD r.gatewayPriority e.Method 0 := by
  have he' : e ∈ (r.buildState c).1 := he
  rw [buildState_eq] at he'
  rcases foldl_emitStep_entries _ _ _ _ _ e he' with h1 | h1
  · rcases foldl_emitStep_entries _ _ _ _ _ e h1 with h2 | h2
    · rcases foldl_emitStep_entries _ _ _ _ _ e h2 with h3 | h3
      · simp at h3
      · obtain ⟨hsc, hms, _, hav, hpr⟩ := h3
        rw [if_pos hms]
        exact ⟨hsc, hav, hpr⟩
    · obtain ⟨hsc, hms, hns, hav, hpr⟩ := h2
      have hnc : e.Method ∉ scopeLookup r.countryGateways c := by
        intro hmem
        exact hns ((foldl_emitStep_seen _ _ _ _ _ _).mpr (Or.inr hmem))
      rw [if_neg hnc, if_pos hms]
      exact ⟨hsc, hav, hpr⟩
  · obtain ⟨hsc, hms, hns, hav, hpr⟩ := h1
    have hnr : e.Method ∉ scopeLookup r.regionGateways (getRegion c) := by
      intro hmem
      exact hns ((foldl_emitStep_seen _ _ _ _ _ _).mpr (Or.inr hmem))
    have hnc : e.Method ∉ scopeLookup r.countryGateways c := by
      intro hmem
      exact hns ((foldl_emitStep_seen _ _ _ _ _ _).mpr
        (Or.inl ((foldl_emitStep_seen _ _ _ _ _ _).mpr (Or.inr hmem))))
    rw [if_neg hnc, if_neg hnr]
    exact ⟨hsc, hav, hpr⟩

theorem getRecommendations_perm (r : GatewayRegistry) (c : String) :
    (r.getRecommendations c).Perm (r.buildRecommendations c) :=
  bubbleSort_perm _ _

theorem buildRecommendations_length (r : GatewayRegistry) (c : String) :
    (r.buildRecommendations c).length = (r.getAvailableGateways c).length := by
  have h1 : ((r.buildRecommendations c).map GatewayRecommendation.Method).Perm
      (r.getAvailableGateways c) := by
    rw [List.perm_ext_iff_of_nodup (buildRecommendations_nodup r c)
      (getAvailableGateways_nodup r c)]
    intro a
    rw [buildRecommendations_mem, mem_getAvailableGateways]
    tauto
  have h2 := h1.length_eq
  rwa [List.length_map] at h2

/-! ## Manager and registration helper lemmas -/

instance (r : GatewayRegistry) : Decidable r.WF := by
  unfold GatewayRegistry.WF
  infer_instance

theorem foldl_filter (gws : List String) (l : List String) :
    ∀ acc, l.foldl (fun acc m => if m ∈ gws then acc ++ [m] else acc) acc =
      acc ++ l.filter (fun m => decide (m ∈ gws)) := by
  induction l with
  | nil => simp
  | cons a t ih =>
    intro acc
    rw [List.foldl_cons]
    by_cases h : a ∈ gws
    · rw [if_pos h, ih]
      simp [List.filter_cons, h]
    · rw [if_neg h, ih]
      simp [List.filter_cons, h]

theorem isGatewayAvailable_iff (r : GatewayRegistry) (c m : String) :
    r.isGatewayAvailable c m = true ↔
      m ∈ r.globalGateways ∨ m ∈ scopeLookup r.regionGateways (getRegion c) ∨
        m ∈ scopeLookup r.countryGateways c := by
  unfold GatewayRegistry.isGatewayAvailable
  split_ifs with h1 h2 h3
  · simp
    tauto
  · simp
    tauto
  · simp
    tauto
  · simp
    tauto

theorem registerGlobalGateway_idem (r : GatewayRegistry) (m : String) (p : Int) :
    (r.registerGlobalGateway m p).registerGlobalGateway m p =
      r.registerGlobalGateway m p := by
  unfold GatewayRegistry.registerGlobalGateway
  simp [addKey_idem, setVal_idem]

theorem registerRegionGateway_idem (r : GatewayRegistry) (sk m : String) (p : Int) :
    (r.registerRegionGateway sk m p).registerRegionGateway sk m p =
      r.registerRegionGateway sk m p := by
  unfold GatewayRegistry.registerRegionGateway
  simp [addToScope_idem, setVal_idem]

theorem registerCountryGateway_idem (r : GatewayRegistry) (sk m : String) (p : Int) :
    (r.registerCountryGateway sk m p).registerCountryGateway sk m p =
      r.registerCountryGateway sk m p := by
  unfold GatewayRegistry.registerCountryGateway
  simp [addToScope_idem, setVal_idem]

/-! ## Well-formedness is an invariant of the registration API -/

theorem mem_map_fst_setVal {β : Type} (l : List (String × β)) (k : String)
    (v : β) (x : String) :
    x ∈ (setVal l k v).map Prod.fst ↔ x ∈ l.map Prod.fst ∨ x = k := by
  induction l with
  | nil => simp [setVal]
  | cons e t ih =>
    obtain ⟨k', v'⟩ := e
    by_cases h : k' = k
    · subst h
      simp [setVal]
      tauto
    · simp [setVal, h, ih]
      tauto

theorem addToScope_mem_inner (l : List (String × List String))
    (outer inner : String) :
    ∀ e ∈ addToScope l outer inner, ∀ x ∈ e.2,
      (∃ e' ∈ l, x ∈ e'.2) ∨ x = inner := by
  induction l with
  | nil =>
    intro e he x hx
    simp only [addToScope, List.mem_singleton] at he
    subst he
    simp only [List.mem_singleton] at hx
    exact Or.inr hx
  | cons hd t ih =>
    obtain ⟨k, s⟩ := hd
    intro e he x hx
    by_cases h : k = outer
    · rw [addToScope, if_pos h] at he
      rcases List.mem_cons.mp he with rfl | he'
      · rcases (addKey_mem s inner x).mp hx with h1 | h1
        · exact Or.inl ⟨(k, s), by simp, h1⟩
        · exact Or.inr h1
      · exact Or.inl ⟨e, List.mem_cons_of_mem _ he', hx⟩
    · rw [addToScope, if_neg h] at he
      rcases List.mem_cons.mp he with rfl | he'
      · exact Or.inl ⟨(k, s), by simp, hx⟩
      · rcases ih e he' x hx with ⟨e', he'', hx'⟩ | h1
        · exact Or.inl ⟨e', List.mem_cons_of_mem _ he'', hx'⟩
        · exact Or.inr h1

theorem WF_new : newGatewayRegistry.WF := by decide

theorem WF_registerGlobalGateway (r : GatewayRegistry) (m : String) (p : Int)
    (h : r.WF) : (r.registerGlobalGateway m p).WF := by
  refine ⟨?_, ?_, ?_⟩
  · intro m' hm'
    rcases (addKey_mem r.globalGateways m m').mp hm' with h1 | heq
    · exact (mem_map_fst_setVal r.gatewayPriority m p m').mpr (Or.inl (h.1 m' h1))
    · exact (mem_map_fst_setVal r.gatewayPriority m p m').mpr (Or.inr heq)
  · intro e he m' hm'
    exact (mem_map_fst_setVal r.gatewayPriority m p m').mpr
      (Or.inl (h.2.1 e he m' hm'))
  · intro e he m' hm'
    exact (mem_map_fst_setVal r.gatewayPriority m p m').mpr
      (Or.inl (h.2.2 e he m' hm'))

theorem WF_registerRegionGateway (r : GatewayRegistry) (sk m : String)
    (p : Int) (h : r.WF) : (r.registerRegionGateway sk m p).WF := by
  refine ⟨?_, ?_, ?_⟩
  · intro m' hm'
    exact (mem_map_fst_setVal r.gatewayPriority m p m').mpr (Or.inl (h.1 m' hm'))
  · intro e he m' hm'
    rcases addToScope_mem_inner r.regionGateways sk m e he m' hm' with
      ⟨e', he', hx⟩ | heq
    · exact (mem_map_fst_setVal r.gatewayPriority m p m').mpr
        (Or.inl (h.2.1 e' he' m' hx))
    · exact (mem_map_fst_setVal r.gatewayPriority m p m').mpr (Or.inr heq)
  · intro e he m' hm'
    exact (mem_map_fst_setVal r.gatewayPriority m p m').mpr
      (Or.inl (h.2.2 e he m' hm'))

theorem WF_registerCountryGateway (r : GatewayRegistry) (sk m : String)
    (p : Int) (h : r.WF) : (r.registerCountryGateway sk m p).WF := by
  refine ⟨?_, ?_, ?_⟩
  · intro m' hm'
    exact (mem_map_fst_setVal r.gatewayPriority m p m').mpr (Or.inl (h.1 m' hm'))
  · intro e he m' hm'
    exact (mem_map_fst_setVal r.gatewayPriority m p m').mpr
      (Or.inl (h.2.1 e he m' hm'))
  · intro e he m' hm'
    rcases addToScope_mem_inner r.countryGateways sk m e he m' hm' with
      ⟨e', he', hx⟩ | heq
    · exact (mem_map_fst_setVal r.gatewayPriority m p m').mpr
        (Or.inl (h.2.2 e' he' m' hx))
    · exact (mem_map_fst_setVal r.gatewayPriority m p m').mpr (Or.inr heq)

/-! ## Claim theorems -/

/-- C1 (counterexample): the claim says a method registered in two
scopes is reported once per granting scope, so in `dupRegistry` (method
`m` registered both for country `NP` and globally, no same-scope
duplicates) `GetRecommendations("NP")` should contain two entries for
`m` and have total length 2.  The code's `seenMethods` set suppresses
the second scope: `m` is reported exactly once and the total is 1. -/
theorem c1_counterexample :
    (Payment.dupRegistry.getRecommendations "NP").map
        Payment.GatewayRecommendation.Method = ["m"] ∧
    ¬ (Payment.dupRegistry.getRecommendations "NP").length = 2 := by
  constructor
  · decide
  · decide

/-- C1 (amended): for every country, `GetRecommendations` reports each
eligible method exactly once — tagged with the highest-precedence scope
that granted it (country over region over global) — so the method list
is duplicate-free, its membership coincides with `GetAvailableGateways`,
and the total recommendation count equals the number of distinct
eligible methods. -/
theorem c1_recommendations_once_per_method (r : GatewayRegistry) (c : String) :
    ((r.getRecommendations c).map GatewayRecommendation.Method).Nodup ∧
    (∀ m, m ∈ (r.getRecommendations c).map GatewayRecommendation.Method ↔
      m ∈ r.getAvailableGateways c) ∧
    (r.getRecommendations c).length = (r.getAvailableGateways c).length ∧
    (∀ e ∈ r.getRecommendations c,
      e.Scope = (if e.Method ∈ scopeLookup r.countryGateways c then "country"
        else if e.Method ∈ scopeLookup r.regionGateways (getRegion c) then "region"
        else "global")) := by
  have hperm := getRecommendations_perm r c
  have hmap : ((r.getRecommendations c).map GatewayRecommendation.Method).Perm
      ((r.buildRecommendations c).map GatewayRecommendation.Method) :=
    hperm.map _
  refine ⟨hmap.symm.nodup (buildRecommendations_nodup r c), ?_, ?_, ?_⟩
  · intro m
    rw [hmap.mem_iff, buildRecommendations_mem, mem_getAvailableGateways]
    tauto
  · exact hperm.length_eq.trans (buildRecommendations_length r c)
  · intro e he
    exact (buildRecommendations_scope r c e (hperm.mem_iff.mp he)).1

/-- C1 (witness): the amended statement evaluated on `dupRegistry`. -/
theorem c1_witness :
    ((Payment.dupRegistry.getRecommendations "NP").map
        Payment.GatewayRecommendation.Method).Nodup ∧
    (∀ m, m ∈ (Payment.dupRegistry.getRecommendations "NP").map
        Payment.GatewayRecommendation.Method ↔
      m ∈ Payment.dupRegistry.getAvailableGateways "NP") ∧
    (Payment.dupRegistry.getRecommendations "NP").length =
      (Payment.dupRegistry.getAvailableGateways "NP").length ∧
    (∀ e ∈ Payment.dupRegistry.getRecommendations "NP",
      e.Scope = (if e.Method ∈ scopeLookup Payment.dupRegistry.countryGateways "NP"
          then "country"
        else if e.Method ∈ scopeLookup Payment.dupRegistry.regionGateways
            (getRegion "NP") then "region"
        else "global")) :=
  c1_recommendations_once_per_method Payment.dupRegistry "NP"

/-- C2: in `GetRecommendations`, every country-scope entry carries
`Recommended = true`, a region-scope entry carries `Recommended = true`
exactly when it was among the first 5 entries emitted overall (emission
order: country, then region, then global, before the priority sort),
and every global-scope entry carries `Recommended = false`; the returned
list is a permutation of the emitted one. -/
theorem c2_recommended_flags (r : GatewayRegistry) (c : String) :
    flagsOK (r.buildRecommendations c) ∧
    (r.getRecommendations c).Perm (r.buildRecommendations c) ∧
    (∀ e ∈ r.getRecommendations c,
      (e.Scope = "country" → e.Recommended = true) ∧
      (e.Scope = "global" → e.Recommended = false)) := by
  refine ⟨buildRecommendations_flagsOK r c, getRecommendations_perm r c, ?_⟩
  intro e he
  have he' : e ∈ r.buildRecommendations c :=
    (getRecommendations_perm r c).mem_iff.mp he
  obtain ⟨i, hi, hei⟩ := List.getElem_of_mem he'
  have hok := buildRecommendations_flagsOK r c i hi
  rw [hei] at hok
  exact ⟨hok.1, hok.2.2⟩

/-- C2 (witness): the statement evaluated on the spec's `NP` scenario
registry. -/
theorem c2_witness :
    flagsOK (Payment.npRegistry.buildRecommendations "NP") ∧
    (Payment.npRegistry.getRecommendations "NP").Perm
      (Payment.npRegistry.buildRecommendations "NP") ∧
    (∀ e ∈ Payment.npRegistry.getRecommendations "NP",
      (e.Scope = "country" → e.Recommended = true) ∧
      (e.Scope = "global" → e.Recommended = false)) :=
  c2_recommended_flags Payment.npRegistry "NP"

/-- C3: for a well-formed registry, `GetAvailableGateways` is sorted
ascending by `GetGatewayPriority`, contains no duplicate method names,
and its membership equals the union of the global, region and country
scope sets; on the spec's scenario registry, `EligibleMethods("NP")`
is `["esewa", "khalti", "stripe"]`. -/
theorem c3_eligible_sorted_union (r : GatewayRegistry) (c : String) (h : r.WF) :
    (r.getAvailableGateways c).Pairwise
      (fun a b => r.getGatewayPriority a ≤ r.getGatewayPriority b) ∧
    (r.getAvailableGateways c).Nodup ∧
    (∀ m, m ∈ r.getAvailableGateways c ↔
      m ∈ r.globalGateways ∨ m ∈ scopeLookup r.regionGateways (getRegion c) ∨
        m ∈ scopeLookup r.countryGateways c) ∧
    Payment.npRegistry.getAvailableGateways "NP" = ["esewa", "khalti", "stripe"] :=
  ⟨getAvailableGateways_sorted r h c, getAvailableGateways_nodup r c,
    mem_getAvailableGateways r c, by decide⟩

/-- C3 (witness): the well-formedness hypothesis holds on the scenario
registry, and the statement is evaluated there. -/
theorem c3_witness :
    Payment.npRegistry.WF ∧
    ((Payment.npRegistry.getAvailableGateways "US").Pairwise
      (fun a b => Payment.npRegistry.getGatewayPriority a ≤
        Payment.npRegistry.getGatewayPriority b) ∧
    (Payment.npRegistry.getAvailableGateways "US").Nodup ∧
    (∀ m, m ∈ Payment.npRegistry.getAvailableGateways "US" ↔
      m ∈ Payment.npRegistry.globalGateways ∨
      m ∈ scopeLookup Payment.npRegistry.regionGateways (getRegion "US") ∨
        m ∈ scopeLookup Payment.npRegistry.countryGateways "US") ∧
    Payment.npRegistry.getAvailableGateways "NP" = ["esewa", "khalti", "stripe"]) :=
  ⟨by decide, c3_eligible_sorted_union Payment.npRegistry "US" (by decide)⟩

/-- C4: `InitiatePaymentWithMethod` gates in order with distinct error
kinds and short-circuits: an ineligible method yields `notEligible` and
the capability is never dispatched to; an eligible method with no live
instance yields the distinct `notConfigured`; only when both gates pass
is the request dispatched. -/
theorem c4_two_ordered_gates (pm : PaymentManager) (c m : String) :
    (pm.registry.isGatewayAvailable c m = false →
      pm.initiatePaymentWithMethod c m = InitResult.notEligible c m ∧
      ∀ m', pm.initiatePaymentWithMethod c m ≠ InitResult.dispatched m') ∧
    (pm.registry.isGatewayAvailable c m = true → m ∉ pm.gateways →
      pm.initiatePaymentWithMethod c m = InitResult.notConfigured m) ∧
    (pm.registry.isGatewayAvailable c m = true → m ∈ pm.gateways →
      pm.initiatePaymentWithMethod c m = InitResult.dispatched m) ∧
    (∀ c' m₁ m₂, InitResult.notEligible c' m₁ ≠ InitResult.notConfigured m₂) := by
  refine ⟨?_, ?_, ?_, ?_⟩
  · intro h
    have hres : pm.initiatePaymentWithMethod c m = InitResult.notEligible c m := by
      simp [PaymentManager.initiatePaymentWithMethod,
        GatewayRegistry.validateGatewayForCountry, h]
    refine ⟨hres, ?_⟩
    intro m' hd
    rw [hres] at hd
    exact InitResult.noConfusion hd
  · intro h hm
    simp [PaymentManager.initiatePaymentWithMethod,
      GatewayRegistry.validateGatewayForCountry, PaymentManager.getGateway, h, hm]
  · intro h hm
    simp [PaymentManager.initiatePaymentWithMethod,
      GatewayRegistry.validateGatewayForCountry, PaymentManager.getGateway, h, hm]
  · intro c' m₁ m₂ hd
    exact InitResult.noConfusion hd

/-- C4 (witness): on the scenario manager, `esewa` is eligible for `NP`
but unconfigured, `khalti` is not eligible for `US`, and `stripe` is
eligible and configured everywhere. -/
theorem c4_witness :
    (Payment.npManager.registry.isGatewayAvailable "US" "khalti" = false ∧
      Payment.npManager.initiatePaymentWithMethod "US" "khalti" =
        InitResult.notEligible "US" "khalti") ∧
    (Payment.npManager.registry.isGatewayAvailable "NP" "esewa" = true ∧
      Payment.npManager.initiatePaymentWithMethod "NP" "esewa" =
        InitResult.notConfigured "esewa") ∧
    (Payment.npManager.registry.isGatewayAvailable "NP" "stripe" = true ∧
      Payment.npManager.initiatePaymentWithMethod "NP" "stripe" =
        InitResult.dispatched "stripe") :=
  ⟨⟨by decide,
    ((c4_two_ordered_gates Payment.npManager "US" "khalti").1 (by decide)).1⟩,
   ⟨by decide,
    (c4_two_ordered_gates Payment.npManager "NP" "esewa").2.1 (by decide) (by decide)⟩,
   ⟨by decide,
    (c4_two_ordered_gates Payment.npManager "NP" "stripe").2.2.1 (by decide) (by decide)⟩⟩

/-- C5: `GetAvailableGatewaysForCountry` equals the registry's
`GetAvailableGateways` filtered to the methods with a live instance,
hence is a subsequence of it, and membership is exactly eligibility
plus configuration. -/
theorem c5_available_is_filtered_eligible (pm : PaymentManager) (c : String) :
    pm.getAvailableGatewaysForCountry c =
      (pm.registry.getAvailableGateways c).filter
        (fun m => decide (m ∈ pm.gateways)) ∧
    (pm.getAvailableGatewaysForCountry c).Sublist
      (pm.registry.getAvailableGateways c) ∧
    (∀ m, m ∈ pm.getAvailableGatewaysForCountry c ↔
      m ∈ pm.registry.getAvailableGateways c ∧ m ∈ pm.gateways) := by
  have heq : pm.getAvailableGatewaysForCountry c =
      (pm.registry.getAvailableGateways c).filter
        (fun m => decide (m ∈ pm.gateways)) := by
    show (pm.registry.getAvailableGateways c).foldl _ [] = _
    rw [foldl_filter]
    simp
  refine ⟨heq, ?_, ?_⟩
  · rw [heq]
    exact List.filter_sublist _
  · intro m
    rw [heq, List.mem_filter]
    simp

/-- C5 (witness): the statement evaluated on the scenario manager. -/
theorem c5_witness :
    Payment.npManager.getAvailableGatewaysForCountry "NP" =
      (Payment.npManager.registry.getAvailableGateways "NP").filter
        (fun m => decide (m ∈ Payment.npManager.gateways)) ∧
    (Payment.npManager.getAvailableGatewaysForCountry "NP").Sublist
      (Payment.npManager.registry.getAvailableGateways "NP") ∧
    (∀ m, m ∈ Payment.npManager.getAvailableGatewaysForCountry "NP" ↔
      m ∈ Payment.npManager.registry.getAvailableGateways "NP" ∧
        m ∈ Payment.npManager.gateways) :=
  c5_available_is_filtered_eligible Payment.npManager "NP"

/-- C6: `GetRecommendedGateway` returns the head of
`GetAvailableGatewaysForCountry` and errors exactly when that list is
empty; with no registrations at all, `GetAvailableGateways` is empty
for every country and `GetRecommendedGateway` always errors. -/
theorem c6_recommended_head_or_error (pm : PaymentManager) (c : String) :
    (pm.getRecommendedGateway c =
        Except.error ("no gateways available for country " ++ c) ↔
      pm.getAvailableGatewaysForCountry c = []) ∧
    (∀ m t, pm.getAvailableGatewaysForCountry c = m :: t →
      pm.getRecommendedGateway c = Except.ok m) ∧
    (∀ c', newGatewayRegistry.getAvailableGateways c' = []) ∧
    (∀ gws c',
      (PaymentManager.mk gws newGatewayRegistry).getRecommendedGateway c' =
        Except.error ("no gateways available for country " ++ c')) := by
  refine ⟨?_, ?_, fun c' => rfl, fun gws c' => rfl⟩
  · cases hav : pm.getAvailableGatewaysForCountry c with
    | nil => simp [PaymentManager.getRecommendedGateway, hav]
    | cons m t => simp [PaymentManager.getRecommendedGateway, hav]
  · intro m t hav
    simp [PaymentManager.getRecommendedGateway, hav]

/-- C6 (witness): the statement evaluated on the scenario manager. -/
theorem c6_witness :
    (Payment.npManager.getRecommendedGateway "NP" =
        Except.error ("no gateways available for country " ++ "NP") ↔
      Payment.npManager.getAvailableGatewaysForCountry "NP" = []) ∧
    (∀ m t, Payment.npManager.getAvailableGatewaysForCountry "NP" = m :: t →
      Payment.npManager.getRecommendedGateway "NP" = Except.ok m) ∧
    (∀ c', newGatewayRegistry.getAvailableGateways c' = []) ∧
    (∀ gws c',
      (PaymentManager.mk gws newGatewayRegistry).getRecommendedGateway c' =
        Except.error ("no gateways available for country " ++ c')) :=
  c6_recommended_head_or_error Payment.npManager "NP"

/-- C7: `IsGatewayAvailable(country, method)` is true exactly when the
method is globally registered, or registered for `GetRegion(country)`,
or registered for the country itself (so a never-registered method
yields false); `RegisterRegionGateway(R, m, p)` makes `m` eligible in
every country of region `R` and, absent other grants, in no country of
a different region. -/
theorem c7_eligibility_union_of_scopes (r : GatewayRegistry)
    (c m R : String) (p : Int) :
    (r.isGatewayAvailable c m = true ↔
      m ∈ r.globalGateways ∨ m ∈ scopeLookup r.regionGateways (getRegion c) ∨
        m ∈ scopeLookup r.countryGateways c) ∧
    (getRegion c = R →
      (r.registerRegionGateway R m p).isGatewayAvailable c m = true) ∧
    (getRegion c ≠ R → r.isGatewayAvailable c m = false →
      (r.registerRegionGateway R m p).isGatewayAvailable c m = false) := by
  refine ⟨isGatewayAvailable_iff r c m, ?_, ?_⟩
  · intro hc
    rw [isGatewayAvailable_iff]
    refine Or.inr (Or.inl ?_)
    show m ∈ scopeLookup (addToScope r.regionGateways R m) (getRegion c)
    rw [hc, scopeLookup_addToScope_self]
    exact (addKey_mem _ _ _).mpr (Or.inr rfl)
  · intro hne hfalse
    rw [Bool.eq_false_iff]
    intro htrue
    rw [isGatewayAvailable_iff] at htrue
    have hreg : scopeLookup (addToScope r.regionGateways R m) (getRegion c) =
        scopeLookup r.regionGateways (getRegion c) :=
      scopeLookup_addToScope_other r.regionGateways R m (getRegion c) hne
    have hold : ¬ (m ∈ r.globalGateways ∨
        m ∈ scopeLookup r.regionGateways (getRegion c) ∨
        m ∈ scopeLookup r.countryGateways c) := by
      rw [← isGatewayAvailable_iff]
      simp [hfalse]
    apply hold
    have h1 : (r.registerRegionGateway R m p).globalGateways =
      r.globalGateways := rfl
    have h2 : (r.registerRegionGateway R m p).regionGateways =
      addToScope r.regionGateways R m := rfl
    have h3 : (r.registerRegionGateway R m p).countryGateways =
      r.countryGateways := rfl
    rw [h1, h2, h3, hreg] at htrue
    exact htrue

/-- C7 (witness): applied to the scenario registry, country `NP`,
method `regional-pay` and region `south-asia`. -/
theorem c7_witness :
    (Payment.npRegistry.isGatewayAvailable "NP" "regional-pay" = true ↔
      "regional-pay" ∈ Payment.npRegistry.globalGateways ∨
      "regional-pay" ∈ scopeLookup Payment.npRegistry.regionGateways
        (getRegion "NP") ∨
      "regional-pay" ∈ scopeLookup Payment.npRegistry.countryGateways "NP") ∧
    (getRegion "NP" = "south-asia" →
      (Payment.npRegistry.registerRegionGateway "south-asia" "regional-pay"
        5).isGatewayAvailable "NP" "regional-pay" = true) ∧
    (getRegion "NP" ≠ "south-asia" →
      Payment.npRegistry.isGatewayAvailable "NP" "regional-pay" = false →
      (Payment.npRegistry.registerRegionGateway "south-asia" "regional-pay"
        5).isGatewayAvailable "NP" "regional-pay" = false) :=
  c7_eligibility_union_of_scopes Payment.npRegistry "NP" "regional-pay"
    "south-asia" 5

/-- C8: each registration operation binds the priority to the method
name in the shared priority table, so the last registration wins
regardless of scope, and a never-registered method gets the sentinel
999. -/
theorem c8_priority_last_registration_wins (r : GatewayRegistry)
    (sk m : String) (p : Int) :
    (r.registerGlobalGateway m p).getGatewayPriority m = p ∧
    (r.registerRegionGateway sk m p).getGatewayPriority m = p ∧
    (r.registerCountryGateway sk m p).getGatewayPriority m = p ∧
    (m ∉ r.gatewayPriority.map Prod.fst → r.getGatewayPriority m = 999) :=
  ⟨lookupD_setVal r.gatewayPriority m p 999,
   lookupD_setVal r.gatewayPriority m p 999,
   lookupD_setVal r.gatewayPriority m p 999,
   fun h => lookupD_not_mem r.gatewayPriority m 999 h⟩

/-- C8 (witness): registering `nobody` with priority 7 through any
scope binds that priority, and before any registration the method gets
the 999 sentinel. -/
theorem c8_witness :
    ((Payment.npRegistry.registerGlobalGateway "nobody" 7).getGatewayPriority
      "nobody" = 7 ∧
    (Payment.npRegistry.registerRegionGateway "south-asia" "nobody"
      7).getGatewayPriority "nobody" = 7 ∧
    (Payment.npRegistry.registerCountryGateway "south-asia" "nobody"
      7).getGatewayPriority "nobody" = 7 ∧
    ("nobody" ∉ Payment.npRegistry.gatewayPriority.map Prod.fst →
      Payment.npRegistry.getGatewayPriority "nobody" = 999)) ∧
    "nobody" ∉ Payment.npRegistry.gatewayPriority.map Prod.fst ∧
    Payment.npRegistry.getGatewayPriority "nobody" = 999 := by
  refine ⟨c8_priority_last_registration_wins Payment.npRegistry "south-asia"
    "nobody" 7, by decide, ?_⟩
  exact (c8_priority_last_registration_wins Payment.npRegistry "south-asia"
    "nobody" 7).2.2.2 (by decide)

/-- C9: registering the same `(scope, method, priority)` tuple twice
through any of the three registration operations leaves
`GetAvailableGateways` (for every country) and `GetGatewayPriority`
(for every method) identical to a single registration. -/
theorem c9_double_registration_idempotent (r : GatewayRegistry)
    (sk m : String) (p : Int) :
    (∀ c, ((r.registerGlobalGateway m p).registerGlobalGateway m
        p).getAvailableGateways c =
      (r.registerGlobalGateway m p).getAvailableGateways c) ∧
    (∀ m', ((r.registerGlobalGateway m p).registerGlobalGateway m
        p).getGatewayPriority m' =
      (r.registerGlobalGateway m p).getGatewayPriority m') ∧
    (∀ c, ((r.registerRegionGateway sk m p).registerRegionGateway sk m
        p).getAvailableGateways c =
      (r.registerRegionGateway sk m p).getAvailableGateways c) ∧
    (∀ m', ((r.registerRegionGateway sk m p).registerRegionGateway sk m
        p).getGatewayPriority m' =
      (r.registerRegionGateway sk m p).getGatewayPriority m') ∧
    (∀ c, ((r.registerCountryGateway sk m p).registerCountryGateway sk m
        p).getAvailableGateways c =
      (r.registerCountryGateway sk m p).getAvailableGateways c) ∧
    (∀ m', ((r.registerCountryGateway sk m p).registerCountryGateway sk m
        p).getGatewayPriority m' =
      (r.registerCountryGateway sk m p).getGatewayPriority m') :=
  ⟨fun c => by rw [registerGlobalGateway_idem],
   fun m' => by rw [registerGlobalGateway_idem],
   fun c => by rw [registerRegionGateway_idem],
   fun m' => by rw [registerRegionGateway_idem],
   fun c => by rw [registerCountryGateway_idem],
   fun m' => by rw [registerCountryGateway_idem]⟩

/-- C10: the manager's `IsGatewayAvailable` is the registry's policy
check, independent of the instance map: for an eligible but
unconfigured method it answers true even though
`InitiatePaymentWithMethod` fails with `notConfigured`. -/
theorem c10_availability_ignores_instances (pm : PaymentManager)
    (c m : String) (g g' : List String) (r : GatewayRegistry) :
    pm.isGatewayAvailable c m = pm.registry.isGatewayAvailable c m ∧
    (PaymentManager.mk g r).isGatewayAvailable c m =
      (PaymentManager.mk g' r).isGatewayAvailable c m ∧
    (pm.registry.isGatewayAvailable c m = true → m ∉ pm.gateways →
      pm.isGatewayAvailable c m = true ∧
      pm.initiatePaymentWithMethod c m = InitResult.notConfigured m) := by
  refine ⟨rfl, rfl, ?_⟩
  intro h hm
  refine ⟨h, ?_⟩
  simp [PaymentManager.initiatePaymentWithMethod,
    GatewayRegistry.validateGatewayForCountry, PaymentManager.getGateway, h, hm]

/-- C10 (witness): on the bare manager, `esewa` is available for `NP`
by policy while `InitiatePaymentWithMethod` reports it unconfigured. -/
theorem c10_witness :
    Payment.bareManager.registry.isGatewayAvailable "NP" "esewa" = true ∧
    "esewa" ∉ Payment.bareManager.gateways ∧
    Payment.bareManager.isGatewayAvailable "NP" "esewa" = true ∧
    Payment.bareManager.initiatePaymentWithMethod "NP" "esewa" =
      InitResult.notConfigured "esewa" := by
  refine ⟨by decide, by decide, ?_⟩
  exact (c10_availability_ignores_instances Payment.bareManager "NP" "esewa"
    [] [] Payment.npRegistry).2.2 (by decide) (by decide)

end Payment
